import Mathlib

/-!
Verification of the rust-find file-search utility (src/rust_find/src/main.rs).

The program is a linear pipeline: recursive enumeration of files under a set
of root directories, three optional list filters (name pattern, minimum size,
maximum size), and an output sink.  We embed the data model and each function
shallowly:

* A filesystem path (`PathBuf`) is modelled as its list of components, each
  component being `Option String` — `some s` for a component that decodes to
  UTF-8, `none` for a non-decodable one.  `to_str` on a whole path succeeds
  iff every component decodes.
* A u64 size is modelled as `Nat` (only order comparisons occur, never
  arithmetic, so no overflow is possible).
* The external regex crate is abstracted by two parameters: a compilation
  function `compile : String → Option R` (`none` = the pattern fails to
  compile, mirroring `Regex::new` returning `Err`) and a matcher
  `isMatch : R → String → Bool` (mirroring `Regex::is_match`).
* Panics (`unwrap` / `expect`) are modelled as `none` results of
  `Option`-valued functions; warnings print nothing in the model and simply
  correspond to the skip behaviour of the surrounding control flow.
-/

namespace RustFind

/-- Embeds the `MyFile` struct: `path: PathBuf`, `name: String`,
`size_bytes: u64`.  A path is its component list; a component is `none` when
it is not valid UTF-8. -/
structure MyFile where
  path : List (Option String)
  name : String
  size_bytes : Nat
deriving DecidableEq, Repr

/-- The filesystem data `MyFile::from_path` consults for one non-directory
entry: the entry's path components and the result of the
`size_on_disk()` query (`none` = the query fails). -/
structure RawFile where
  components : List (Option String)
  size_on_disk : Option Nat
deriving DecidableEq, Repr

/-- Embeds `MyFile::from_path`: `path.file_name()?` is the final path
component (`none` for an empty component list), `.to_str()?` requires that
component to decode, and `size_on_disk().ok()?` requires the size query to
succeed.  Any failure yields `None`. -/
def MyFile.from_path (p : RawFile) : Option MyFile := do
  let lastComp ← p.components.getLast?
  let name ← lastComp
  let size ← p.size_on_disk
  some { path := p.components, name := name, size_bytes := size }

/-- One entry met during the recursive walk: a non-directory entry carries
the raw data `MyFile::from_path` sees; a directory entry carries its listing
when `fs::read_dir` succeeds on it (`dirOk`) or marks a listing failure
(`dirFail`, on which `rec_get_files` panics via `unwrap`). -/
inductive FsNode where
  | file (raw : RawFile)
  | dirOk (entries : List FsNode)
  | dirFail

/-- Embeds the body of the inner `rec_get_files` loop over the entries of a
directory whose listing succeeded.  A non-directory entry is pushed when
`MyFile::from_path` succeeds and skipped with a warning when it fails; a
directory entry is recursed into (`vec.append`), and a directory whose
listing fails makes `fs::read_dir(dir).unwrap()` panic, modelled by `none`. -/
def recGetFilesEntries : List FsNode → Option (List MyFile)
  | [] => some []
  | FsNode.file raw :: rest =>
      (recGetFilesEntries rest).map (fun b => (MyFile.from_path raw).toList ++ b)
  | FsNode.dirFail :: _ => none
  | FsNode.dirOk es :: rest => do
      let a ← recGetFilesEntries es
      let b ← recGetFilesEntries rest
      some (a ++ b)
termination_by l => sizeOf l

/-- Embeds `rec_get_files` applied to one directory: first
`fs::read_dir(dir).unwrap()` (panic when the listing fails), then the loop
over the entries. -/
def rec_get_files : Option (List FsNode) → Option (List MyFile)
  | none => none
  | some es => recGetFilesEntries es

/-- One root directory supplied on the command line: `missing` when
`dir.exists()` is false (warn and skip), otherwise the listing
`rec_get_files` will see for it. -/
inductive Root where
  | missing
  | present (listing : Option (List FsNode))

/-- Embeds `get_files`: roots are processed in input order; a missing root
is skipped with a warning; an existing root's records are appended. -/
def get_files : List Root → Option (List MyFile)
  | [] => some []
  | Root.missing :: rest => get_files rest
  | Root.present l :: rest => do
      let a ← rec_get_files l
      let b ← get_files rest
      some (a ++ b)

/-- Embeds the pattern-compilation loop at the top of `filter_files_regex`:
each pattern is compiled; a successful compile is pushed, a failed one is
reported as a warning and skipped (`continue`), and compilation of the
remaining patterns proceeds. -/
def compilePatterns {R : Type} (compile : String → Option R) : List String → List R
  | [] => []
  | p :: rest =>
    match compile p with
    | none => compilePatterns compile rest
    | some r => r :: compilePatterns compile rest

/-- Embeds `filter_files_regex`: keep a file iff `regexes.iter().any(|regex|
regex.is_match(&file.name))` over the successfully compiled patterns. -/
def filter_files_regex {R : Type} (compile : String → Option R)
    (isMatch : R → String → Bool)
    (files : List MyFile) (patterns : List String) : List MyFile :=
  let regexes := compilePatterns compile patterns
  files.filter (fun file => regexes.any (fun regex => isMatch regex file.name))

/-- Embeds `filter_files_size_min`: keep a file iff
`file.size_bytes >= *min_size`. -/
def filter_files_size_min (files : List MyFile) (min_size : Nat) : List MyFile :=
  files.filter (fun file => decide (file.size_bytes ≥ min_size))

/-- Embeds `filter_files_size_max`: keep a file iff
`file.size_bytes <= *max_size`. -/
def filter_files_size_max (files : List MyFile) (max_size : Nat) : List MyFile :=
  files.filter (fun file => decide (file.size_bytes ≤ max_size))

/-- Embeds `PathBuf::to_str` on the modelled path: the whole path converts
to a string iff every component decodes to UTF-8. -/
def pathToStr (p : List (Option String)) : Option String :=
  (p.mapM id).map (String.intercalate ("/"))

/-- Embeds the write loop of `output_files` after the destination has been
created and opened: for each surviving record, in sequence order, its path
is converted with `to_str()` — the `.unwrap()` panics (modelled by the
overall `none`) when the path is not valid UTF-8 — and written followed by a
newline.  The returned list is the sequence of chunks written to the
destination. -/
def output_files : List MyFile → Option (List String)
  | [] => some []
  | file :: rest => do
      let s ← pathToStr file.path
      let out ← output_files rest
      some ((s ++ "\n") :: out)

/-- Embeds the filter chain of `main`: the enumerated records pass through
the name filter when `cli.patterns` is present, then the minimum-size filter
when `cli.size_min` is present, then the maximum-size filter when
`cli.size_max` is present; an absent option leaves the sequence unchanged.
The result is the sequence handed to the output sink. -/
def main {R : Type} (compile : String → Option R) (isMatch : R → String → Bool)
    (files : List MyFile) (patterns : Option (List String))
    (size_min size_max : Option Nat) : List MyFile :=
  let ffiles := match patterns with
    | none => files
    | some pat => filter_files_regex compile isMatch files pat
  let ffiles2 := match size_min with
    | none => ffiles
    | some m => filter_files_size_min ffiles m
  match size_max with
  | none => ffiles2
  | some m => filter_files_size_max ffiles2 m

/-! ### Helper lemmas -/

/-- Compiling a concatenation of pattern lists compiles each part. -/
theorem compilePatterns_append {R : Type} (compile : String → Option R)
    (xs ys : List String) :
    compilePatterns compile (xs ++ ys) =
      compilePatterns compile xs ++ compilePatterns compile ys := by
  induction xs with
  | nil => rfl
  | cons p rest ih =>
      simp only [List.cons_append, compilePatterns]
      cases compile p <;> simp [ih]

/-- Membership in the minimum-size filter output. -/
theorem mem_filter_files_size_min {files : List MyFile} {m : Nat} {f : MyFile} :
    f ∈ filter_files_size_min files m ↔ f ∈ files ∧ m ≤ f.size_bytes := by
  simp [filter_files_size_min, List.mem_filter, ge_iff_le]

/-- Membership in the maximum-size filter output. -/
theorem mem_filter_files_size_max {files : List MyFile} {M : Nat} {f : MyFile} :
    f ∈ filter_files_size_max files M ↔ f ∈ files ∧ f.size_bytes ≤ M := by
  simp [filter_files_size_max, List.mem_filter]

/-- A concrete stand-in regex engine used for closed evaluations: a pattern
compiles iff it is nonempty, and a compiled pattern matches exactly itself. -/
def testCompile (p : String) : Option String :=
  if p.isEmpty then none else some p

/-- Matcher of the concrete stand-in engine. -/
def testMatch (r name : String) : Bool := r == name

/-- A sample record used in closed witness statements. -/
def sampleFile : MyFile :=
  { path := [some ("f.txt")], name := ("f.txt"), size_bytes := 2048 }

/-! ### C1 -/

/-- C1: the name filter keeps a record iff its `name` matches at least one
successfully compiled pattern (logical OR across the surviving compiled
patterns); a record whose name matches zero surviving patterns is excluded. -/
theorem filter_files_regex_mem_iff {R : Type} (compile : String → Option R)
    (isMatch : R → String → Bool) (files : List MyFile) (patterns : List String)
    (f : MyFile) :
    f ∈ filter_files_regex compile isMatch files patterns ↔
      f ∈ files ∧ ∃ r ∈ compilePatterns compile patterns, isMatch r f.name = true := by
  simp [filter_files_regex, List.mem_filter, List.any_eq_true]

/-! ### C2 -/

/-- C2: both size bounds are inclusive: a record passes the minimum-size
filter iff `size_bytes ≥ size_min` and the maximum-size filter iff
`size_bytes ≤ size_max`; hence a record strictly outside the configured
bounds never reaches the final output, and one exactly at a bound always
passes that bound's filter. -/
theorem size_filters_inclusive (files : List MyFile) (m M : Nat) (f : MyFile) :
    (f ∈ filter_files_size_min files m ↔ f ∈ files ∧ m ≤ f.size_bytes) ∧
    (f ∈ filter_files_size_max files M ↔ f ∈ files ∧ f.size_bytes ≤ M) ∧
    (∀ {R : Type} (compile : String → Option R) (isMatch : R → String → Bool)
      (pats : Option (List String)) (smax : Option Nat),
      f ∈ main compile isMatch files pats (some m) smax → m ≤ f.size_bytes) ∧
    (∀ {R : Type} (compile : String → Option R) (isMatch : R → String → Bool)
      (pats : Option (List String)) (smin : Option Nat),
      f ∈ main compile isMatch files pats smin (some M) → f.size_bytes ≤ M) := by
  refine ⟨mem_filter_files_size_min, mem_filter_files_size_max, ?_, ?_⟩
  · intro R compile isMatch pats smax h
    cases smax with
    | none =>
        simp only [main] at h
        exact (mem_filter_files_size_min.mp h).2
    | some M2 =>
        simp only [main] at h
        exact (mem_filter_files_size_min.mp (mem_filter_files_size_max.mp h).1).2
  · intro R compile isMatch pats smin h
    cases smin <;> simp only [main] at h <;>
      exact (mem_filter_files_size_max.mp h).2

/-- Closed witness for C2: a 2048-byte record sits exactly at both bounds
and survives the pipeline with `size_min = size_max = 2048`. -/
theorem size_filters_inclusive_witness : 2048 ≤ sampleFile.size_bytes :=
  (size_filters_inclusive [sampleFile] 2048 2048 sampleFile).2.2.1
    testCompile testMatch none (some 2048) (by decide)

/-! ### C3 -/

/-- C3: when none of the three filter options is configured, the sequence
handed to the output sink is exactly the enumerator's output: each absent
option is an identity pass-through in `main`. -/
theorem main_no_filters_identity {R : Type} (compile : String → Option R)
    (isMatch : R → String → Bool) (files : List MyFile) :
    main compile isMatch files none none none = files := rfl

/-! ### C4 -/

/-- C4: a pattern that fails to compile is dropped from the active set while
compilation of the remaining patterns continues; and whenever the set of
successfully compiled patterns is empty (in particular when every pattern
fails to compile or the pattern list is empty), the filter rejects all
files. -/
theorem compile_failure_dropped {R : Type} (compile : String → Option R)
    (isMatch : R → String → Bool) :
    (∀ (xs ys : List String) (p : String), compile p = none →
      compilePatterns compile (xs ++ p :: ys) = compilePatterns compile (xs ++ ys)) ∧
    (∀ (files : List MyFile) (patterns : List String),
      compilePatterns compile patterns = [] →
      filter_files_regex compile isMatch files patterns = []) ∧
    (∀ files : List MyFile, filter_files_regex compile isMatch files [] = []) := by
  refine ⟨?_, ?_, ?_⟩
  · intro xs ys p hp
    rw [compilePatterns_append, compilePatterns_append]
    simp [compilePatterns, hp]
  · intro files patterns h
    simp [filter_files_regex, h]
  · intro files
    simp [filter_files_regex, compilePatterns]

/-- Closed witness for C4: the empty pattern fails to compile in the
stand-in engine and is dropped between two compiling patterns. -/
theorem compile_failure_dropped_witness :
    compilePatterns testCompile ([("a")] ++ ("") :: [("b")]) =
      compilePatterns testCompile ([("a")] ++ [("b")]) :=
  (compile_failure_dropped testCompile testMatch).1 [("a")] [("b")] ("") (by decide)

/-! ### Enumeration lemmas -/

/-- Every record produced by the entry loop was built by a successful
`MyFile::from_path`. -/
theorem recGetFilesEntries_sound :
    ∀ (l : List FsNode) (fs : List MyFile), recGetFilesEntries l = some fs →
      ∀ f ∈ fs, ∃ raw, MyFile.from_path raw = some f := by
  intro l
  induction l using recGetFilesEntries.induct with
  | case1 =>
      intro fs h f hf
      simp [recGetFilesEntries] at h
      subst h
      simp at hf
  | case2 raw rest ih =>
      intro fs h f hf
      simp only [recGetFilesEntries] at h
      cases hr : recGetFilesEntries rest with
      | none => rw [hr] at h; simp at h
      | some b =>
          rw [hr] at h
          simp only [Option.map_some'] at h
          rw [Option.some_inj] at h
          subst h
          rcases List.mem_append.mp hf with h1 | h2
          · cases hfp : MyFile.from_path raw with
            | none => rw [hfp] at h1; simp at h1
            | some g =>
                rw [hfp] at h1
                simp only [Option.toList_some, List.mem_singleton] at h1
                subst h1
                exact ⟨raw, hfp⟩
          · exact ih b hr f h2
  | case3 tail =>
      intro fs h
      simp [recGetFilesEntries] at h
  | case4 es rest ih1 ih2 =>
      intro fs h f hf
      simp only [recGetFilesEntries] at h
      cases ha : recGetFilesEntries es with
      | none => rw [ha] at h; simp at h
      | some a =>
          rw [ha] at h
          cases hb : recGetFilesEntries rest with
          | none => rw [hb] at h; simp at h
          | some b =>
              rw [hb] at h
              simp at h
              subst h
              rcases List.mem_append.mp hf with h1 | h2
              · exact ih1 a ha f h1
              · exact ih2 b hb f h2

/-- A record built by `MyFile::from_path` is reconstructible from its own
fields: its final path component is its (decodable) name and its size was
successfully read. -/
theorem from_path_roundtrip {raw : RawFile} {f : MyFile}
    (h : MyFile.from_path raw = some f) :
    MyFile.from_path ⟨f.path, some f.size_bytes⟩ = some f := by
  simp only [MyFile.from_path, Option.bind_eq_bind, Option.bind_eq_some] at h
  obtain ⟨lc, hlc, nm, hnm, sz, hsz, hf⟩ := h
  simp only [Option.some.injEq] at hf
  subst hf
  subst hnm
  simp [MyFile.from_path, hlc]

/-- Every record `get_files` produces was built by a successful
`MyFile::from_path`. -/
theorem get_files_sound :
    ∀ (roots : List Root) (fs : List MyFile), get_files roots = some fs →
      ∀ f ∈ fs, ∃ raw, MyFile.from_path raw = some f := by
  intro roots
  induction roots with
  | nil =>
      intro fs h f hf
      simp [get_files] at h
      subst h
      simp at hf
  | cons x rest ih =>
      intro fs h f hf
      cases x with
      | missing => exact ih fs (by simpa [get_files] using h) f hf
      | present l =>
          simp only [get_files] at h
          cases hl : rec_get_files l with
          | none => rw [hl] at h; simp at h
          | some a =>
              rw [hl] at h
              cases hr : get_files rest with
              | none => rw [hr] at h; simp at h
              | some b =>
                  rw [hr] at h
                  simp at h
                  subst h
                  rcases List.mem_append.mp hf with h1 | h2
                  · cases l with
                    | none => simp [rec_get_files] at hl
                    | some es =>
                        exact recGetFilesEntries_sound es a
                          (by simpa [rec_get_files] using hl) f h1
                  · exact ih b hr f h2

/-! ### C5 -/

/-- C5: a missing root contributes zero records and causes no fatal error —
all sibling roots before and after it are still processed — and the overall
result is the concatenation, in input order, of the records of the roots
that are processed. -/
theorem get_files_missing_root_skipped :
    (∀ (xs ys : List Root), get_files (xs ++ Root.missing :: ys) = get_files (xs ++ ys)) ∧
    (∀ (xs ys : List Root) (as bs : List MyFile),
      get_files xs = some as → get_files ys = some bs →
      get_files (xs ++ ys) = some (as ++ bs)) := by
  constructor
  · intro xs ys
    induction xs with
    | nil => rfl
    | cons x rest ih =>
        cases x with
        | missing => simpa [get_files] using ih
        | present l => simp [get_files, ih]
  · intro xs
    induction xs with
    | nil =>
        intro ys as bs ha hb
        simp only [get_files, Option.some.injEq] at ha
        subst ha
        simpa using hb
    | cons x rest ih =>
        intro ys as bs ha hb
        cases x with
        | missing =>
            simp only [get_files] at ha
            simpa [get_files] using ih ys as bs ha hb
        | present l =>
            simp only [get_files] at ha
            cases hl : rec_get_files l with
            | none => rw [hl] at ha; simp at ha
            | some a0 =>
                rw [hl] at ha
                cases hr : get_files rest with
                | none => rw [hr] at ha; simp at ha
                | some a1 =>
                    rw [hr] at ha
                    simp at ha
                    subst ha
                    simp [get_files, hl, ih ys a1 bs hr hb, List.append_assoc]

/-- Closed witness for C5: a missing root between processed roots. -/
theorem get_files_missing_root_skipped_witness :
    get_files ([Root.missing] ++ [Root.missing]) = some ([] ++ []) :=
  get_files_missing_root_skipped.2 [Root.missing] [Root.missing] [] [] rfl rfl

/-! ### C6 -/

/-- C6: a non-directory entry on which `MyFile::from_path` fails is skipped
while enumeration of its siblings continues unaffected, and every record in
a successful enumeration result was built by a successful
`MyFile::from_path` — its final path component is its decodable name and
its size was successfully read. -/
theorem enumeration_bad_entry_skipped :
    (∀ (xs ys : List FsNode) (raw : RawFile), MyFile.from_path raw = none →
      recGetFilesEntries (xs ++ FsNode.file raw :: ys) = recGetFilesEntries (xs ++ ys)) ∧
    (∀ (roots : List Root) (fs : List MyFile), get_files roots = some fs →
      ∀ f ∈ fs, MyFile.from_path ⟨f.path, some f.size_bytes⟩ = some f) := by
  constructor
  · intro xs ys raw hraw
    induction xs with
    | nil => simp [recGetFilesEntries, hraw]
    | cons x rest ih =>
        cases x with
        | file raw2 => simp [recGetFilesEntries, ih]
        | dirFail => simp [recGetFilesEntries]
        | dirOk es =>
            simp only [List.cons_append, recGetFilesEntries]
            rw [ih]
  · intro roots fs h f hf
    obtain ⟨raw, hraw⟩ := get_files_sound roots fs h f hf
    exact from_path_roundtrip hraw

/-- Closed witness for C6: an entry with no final path component is
skipped. -/
theorem enumeration_bad_entry_skipped_witness :
    recGetFilesEntries ([] ++ FsNode.file ⟨[], none⟩ :: []) =
      recGetFilesEntries ([] ++ []) :=
  enumeration_bad_entry_skipped.1 [] [] ⟨[], none⟩ rfl

/-! ### C7 -/

/-- C7: a failure to list a subdirectory once traversal has begun is fatal:
the walk yields no result at all (the `unwrap` panics), regardless of what
surrounds the failing directory — unlike the recoverable per-entry and
missing-root failures. -/
theorem subdir_listing_failure_fatal (xs ys : List FsNode) :
    recGetFilesEntries (xs ++ FsNode.dirFail :: ys) = none := by
  induction xs with
  | nil => simp [recGetFilesEntries]
  | cons x rest ih =>
      cases x with
      | file raw => simp [recGetFilesEntries, ih]
      | dirFail => simp [recGetFilesEntries]
      | dirOk es =>
          simp only [List.cons_append, recGetFilesEntries]
          cases recGetFilesEntries es <;> simp [ih]

/-! ### C8 -/

/-- C8: the result set of the filter chain is independent of the order in
which the configured filters are applied: the fixed name-then-min-then-max
order of `main` equals one fused pass over the conjunction of the three
per-record predicates, and any two stages commute. -/
theorem filter_order_independent {R : Type} (compile : String → Option R)
    (isMatch : R → String → Bool) (files : List MyFile)
    (pats : List String) (m M : Nat) :
    (main compile isMatch files (some pats) (some m) (some M)
      = files.filter (fun f =>
          (compilePatterns compile pats).any (fun r => isMatch r f.name)
          && decide (f.size_bytes ≥ m) && decide (f.size_bytes ≤ M))) ∧
    (filter_files_size_max (filter_files_size_min files m) M
      = filter_files_size_min (filter_files_size_max files M) m) ∧
    (filter_files_size_min (filter_files_regex compile isMatch files pats) m
      = filter_files_regex compile isMatch (filter_files_size_min files m) pats) ∧
    (filter_files_size_max (filter_files_regex compile isMatch files pats) M
      = filter_files_regex compile isMatch (filter_files_size_max files M) pats) := by
  refine ⟨?_, ?_, ?_, ?_⟩ <;>
    simp only [main, filter_files_regex, filter_files_size_min, filter_files_size_max,
      List.filter_filter] <;>
    (congr 1; funext f) <;>
    cases (compilePatterns compile pats).any (fun r => isMatch r f.name) <;>
    cases decide (f.size_bytes ≥ m) <;>
    cases decide (f.size_bytes ≤ M) <;>
    rfl

/-! ### C9 -/

/-- C9: every filter stage returns a subsequence of its input: no record is
added, the relative order of kept records is preserved (sublist property),
and each kept record appears exactly as often as in the input. -/
theorem filters_are_subsequences {R : Type} (compile : String → Option R)
    (isMatch : R → String → Bool) (files : List MyFile)
    (pats : List String) (m M : Nat) :
    ((filter_files_regex compile isMatch files pats).Sublist files ∧
     (filter_files_size_min files m).Sublist files ∧
     (filter_files_size_max files M).Sublist files) ∧
    (∀ f ∈ filter_files_regex compile isMatch files pats,
       (filter_files_regex compile isMatch files pats).count f = files.count f) ∧
    (∀ f ∈ filter_files_size_min files m,
       (filter_files_size_min files m).count f = files.count f) ∧
    (∀ f ∈ filter_files_size_max files M,
       (filter_files_size_max files M).count f = files.count f) := by
  refine ⟨⟨List.filter_sublist files, List.filter_sublist files,
    List.filter_sublist files⟩, ?_, ?_, ?_⟩ <;>
  · intro f hf
    simp only [filter_files_regex, filter_files_size_min, filter_files_size_max] at hf ⊢
    rw [List.count_filter]
    exact (List.mem_filter.mp hf).2

/-- Closed witness for C9: a record kept by the minimum-size filter keeps
its multiplicity. -/
theorem filters_are_subsequences_witness :
    (filter_files_size_min [sampleFile] 0).count sampleFile
      = [sampleFile].count sampleFile :=
  (filters_are_subsequences testCompile testMatch [sampleFile] [] 0 0).2.2.1
    sampleFile (by decide)

/-! ### C10 -/

/-- A record whose final path component decodes but whose full path does
not: `MyFile::from_path` accepts it, `to_str()` on its path fails. -/
def badFile : MyFile :=
  { path := [none, some ("a.txt")], name := ("a.txt"), size_bytes := 7 }

/-- C10: with an output destination configured, `output_files` panics when
any surviving record's path is not valid UTF-8 — and such a record can
exist, since `MyFile::from_path` only requires the final path component to
decode — while for records whose paths all decode it writes each path
followed by a newline, in sequence order. -/
theorem output_files_panics_on_non_utf8_path :
    (∃ (raw : RawFile) (f : MyFile),
      MyFile.from_path raw = some f ∧ pathToStr f.path = none) ∧
    (∀ (files : List MyFile) (f : MyFile), f ∈ files → pathToStr f.path = none →
      output_files files = none) ∧
    (∀ files : List MyFile, (∀ f ∈ files, (pathToStr f.path).isSome) →
      output_files files
        = some (files.map (fun f => (pathToStr f.path).getD ("") ++ "\n"))) := by
  refine ⟨⟨⟨[none, some ("a.txt")], some 7⟩, badFile, by decide, by decide⟩, ?_, ?_⟩
  · intro files
    induction files with
    | nil => intro f hf; simp at hf
    | cons g rest ih =>
        intro f hf hnone
        rcases List.mem_cons.mp hf with h1 | h2
        · subst h1
          simp [output_files, hnone]
        · simp only [output_files]
          rw [ih f h2 hnone]
          cases pathToStr g.path <;> simp
  · intro files
    induction files with
    | nil => intro h; rfl
    | cons g rest ih =>
        intro h
        cases hg : pathToStr g.path with
        | none =>
            exact absurd (h g (List.mem_cons_self g rest)) (by simp [hg])
        | some s =>
            simp [output_files, hg, ih (fun f hf => h f (List.mem_cons_of_mem g hf))]

/-- Closed witness for C10: a single surviving record with a non-UTF-8 path
component makes the output sink panic. -/
theorem output_files_panics_witness : output_files [badFile] = none :=
  output_files_panics_on_non_utf8_path.2.1 [badFile] badFile (by decide) (by decide)

end RustFind
